import Mathlib

/-!
Verification of the VAE core of the `cortex` repository
(`cortex/built_ins/models/vae.py`).

Tensors are shallowly embedded as `List ℝ` (one example) and
`List (List ℝ)` (a batch, one row per example).  The stochastic noise draw
of the reparameterization trick is passed as an explicit argument `esp`
(the name used in the source).  Black-box collaborators (the encoder and
decoder backbones and the `ms_ssim` metric) are modelled as function
parameters, exactly as the orchestrator treats them.
-/

namespace Cortex

/-- Elementwise rectified linear unit, `F.relu`. -/
def relu (x : ℝ) : ℝ := max x 0

/-- Dot product of two vectors (truncating, as `zipWith` does). -/
def dot (xs ys : List ℝ) : ℝ := (List.zipWith (· * ·) xs ys).sum

/-- A linear layer `nn.Linear`: a weight matrix (list of rows, one row per
output feature) and a bias vector. -/
structure Linear where
  weight : List (List ℝ)
  bias : List ℝ

/-- Application of a linear layer: `W x + b`, one output per (row, bias) pair. -/
def Linear.apply (l : Linear) (x : List ℝ) : List ℝ :=
  List.zipWith (fun row b => dot row x + b) l.weight l.bias

/-- Dimension discipline of `nn.Linear dimIn dimZ`: the weight has `dimZ`
rows of length `dimIn` and the bias has length `dimZ`. -/
def Linear.hasDims (l : Linear) (dimIn dimZ : ℕ) : Prop :=
  l.weight.length = dimZ ∧ (∀ row ∈ l.weight, row.length = dimIn) ∧
    l.bias.length = dimZ

/-- The `VAENetwork` module (vae.py lines 15-58): an encoder backbone, the
two linear latent heads built by `__init__`, a decoder backbone, and the
`nn.Module` training flag. -/
structure VAENetwork where
  encoder : List ℝ → List ℝ
  mu_net : Linear
  logvar_net : Linear
  decoder : List ℝ → List ℝ
  training : Bool

/-- `VAENetwork.encode` (vae.py lines 39-42): relu of the encoder features,
then the mu head only. -/
def VAENetwork.encode (net : VAENetwork) (inputs : List ℝ) : List ℝ :=
  net.mu_net.apply ((net.encoder inputs).map relu)

/-- `VAENetwork.reparametrize` (vae.py lines 44-50): during training return
`mu + std * esp` with `esp` a standard-normal draw (passed explicitly
here); otherwise return `mu` unchanged. -/
def VAENetwork.reparametrize (net : VAENetwork) (mu std esp : List ℝ) :
    List ℝ :=
  if net.training then
    List.zipWith (· + ·) mu (List.zipWith (· * ·) std esp)
  else mu

/-- The values computed and recorded by one forward pass: `self.mu`,
`self.std`, `self.latent`, and the returned reconstruction. -/
structure ForwardResult where
  mu : List ℝ
  std : List ℝ
  latent : List ℝ
  output : List ℝ

/-- `VAENetwork.forward` (vae.py lines 52-58): relu of the encoder features,
`mu = mu_net(encoded)`, `std = logvar_net(encoded).exp_()` (the raw head
output exponentiated directly), reparametrize, decode. -/
noncomputable def VAENetwork.forward (net : VAENetwork) (x esp : List ℝ) : ForwardResult :=
  let encoded := (net.encoder x).map relu
  let mu := net.mu_net.apply encoded
  let std := (net.logvar_net.apply encoded).map Real.exp
  let latent := net.reparametrize mu std esp
  ⟨mu, std, latent, net.decoder latent⟩

/-- `F.mse_loss(output, target, size_average)`: the sum over all elements of
the squared differences, divided by the element count when
`size_average` is true. -/
noncomputable def mse_loss (output target : List (List ℝ)) (size_average : Bool) : ℝ :=
  let se := (List.zipWith
    (fun o t => (List.zipWith (fun a b => (a - b) ^ 2) o t).sum)
    output target).sum
  if size_average then se / ((output.map List.length).sum : ℝ) else se

/-- The Python default of the `vae_criterion` argument of `VAE.routine`
(vae.py line 179): `F.mse_loss`. -/
noncomputable def vae_criterion_default : List (List ℝ) → List (List ℝ) → Bool → ℝ :=
  mse_loss

/-- The Python default of the `beta_kld` argument of `VAE.routine`
(vae.py line 180): `1.`. -/
def beta_kld_default : ℝ := 1

/-- One row of the KL tensor of `VAE.routine` (vae.py lines 194-195):
`(0.5 * (std**2 + mu**2 - 2*log(std) - 1)).sum(1)` for one example. -/
noncomputable def klRow (mu std : List ℝ) : ℝ :=
  (List.zipWith (fun m s => 0.5 * (s ^ 2 + m ^ 2 - 2 * Real.log s - 1))
    mu std).sum

/-- The KL term of `VAE.routine`: the per-example row sums, then `.mean()`
over the batch. -/
noncomputable def klTerm (mus stds : List (List ℝ)) : ℝ :=
  (List.zipWith klRow mus stds).sum / (mus.length : ℝ)

/-- What one call of `VAE.routine` produces: the named loss `losses.vae`,
its two summands, and the metrics passed to `results.update`. -/
structure RoutineResult where
  vae_loss : ℝ
  r_loss : ℝ
  kl : ℝ
  results : List (String × ℝ)

/-- `VAE.routine` (vae.py lines 179-200).  The criterion and the
similarity metric are the function parameters of the source; the noise
rows `esps` feed the per-example forward passes. -/
noncomputable def VAE.routine (net : VAENetwork) (inputs esps : List (List ℝ))
    (vae_criterion : List (List ℝ) → List (List ℝ) → Bool → ℝ)
    (beta_kld : ℝ)
    (ms_ssim : List (List ℝ) → List (List ℝ) → ℝ) : RoutineResult :=
  let frs := List.zipWith (fun x e => net.forward x e) inputs esps
  let outputs := frs.map ForwardResult.output
  let r_loss := vae_criterion outputs inputs false / (inputs.length : ℝ)
  let kl := klTerm (frs.map ForwardResult.mu) (frs.map ForwardResult.std)
  let msssim := ms_ssim inputs outputs
  ⟨r_loss + beta_kld * kl, r_loss, kl,
    [("KL_divergence", kl), ("ms_ssim", msssim)]⟩

/-- The error class named by the spec for invalid build configuration. -/
inductive ConfigurationError
  | mk : ConfigurationError
deriving DecidableEq

/-- `VAE.build` (vae.py lines 161-177).  The Python signature is
`build(self, dim_z=64, dim_encoder_out=1024)`: a missing argument takes
its default, and the body constructs the networks without any validation
of either dimension, so no error branch exists; the `Except` records the
dimensions handed to `VAENetwork` and that no `ConfigurationError` is
ever produced. -/
def VAE.build (dim_z dim_encoder_out : Option ℤ) :
    Except ConfigurationError (ℤ × ℤ) :=
  Except.ok (dim_z.getD 64, dim_encoder_out.getD 1024)

/-! Concrete fixtures used by the witness theorems: a one-dimensional
identity encoder/decoder and unit linear heads, with training off. -/

/-- Identity backbone on one-dimensional tensors. -/
def idNet : List ℝ → List ℝ := fun v => v

/-- A 1-to-1 linear layer with unit weight and zero bias. -/
def oneLin : Linear := ⟨[[1]], [0]⟩

/-- A concrete `VAENetwork` in evaluation mode. -/
def testNetEval : VAENetwork := ⟨idNet, oneLin, oneLin, idNet, false⟩

/-- `oneLin` obeys the dimension discipline of `nn.Linear 1 1`. -/
lemma oneLin_hasDims : oneLin.hasDims 1 1 := by
  refine ⟨rfl, ?_, rfl⟩
  intro row hr
  simp only [oneLin, List.mem_singleton] at hr
  subst hr
  rfl

/-! Helper lemmas about the KL expressions. -/

/-- A `zipWith` is the `map` of the paired function over the `zip`. -/
lemma zipWith_eq_map_zip {α β γ : Type} (f : α → β → γ) :
    ∀ (l1 : List α) (l2 : List β),
      List.zipWith f l1 l2 = (List.zip l1 l2).map (fun p => f p.1 p.2) := by
  intro l1
  induction l1 with
  | nil => intro l2; simp
  | cons a l ih =>
    intro l2
    cases l2 with
    | nil => simp
    | cons b l' => simp [ih]

/-- A `zipWith` of two maps of the same list is a single `map`. -/
lemma zipWith_map_same {α β γ δ : Type} (f : β → γ → δ) (p : α → β)
    (q : α → γ) : ∀ l : List α,
      List.zipWith f (l.map p) (l.map q) = l.map (fun x => f (p x) (q x)) := by
  intro l
  induction l with
  | nil => simp
  | cons a t ih => simp [ih]

/-- The elementwise factor `0.5` of a KL row commutes out of the row sum. -/
lemma klRow_eq_half_sum (mu : List ℝ) : ∀ std : List ℝ,
    klRow mu std = 0.5 *
      (List.zipWith (fun m s => s ^ 2 + m ^ 2 - 2 * Real.log s - 1)
        mu std).sum := by
  induction mu with
  | nil => intro std; simp [klRow]
  | cons m ms ih =>
    intro std
    cases std with
    | nil => simp [klRow]
    | cons s ss =>
      have h := ih ss
      unfold klRow at h ⊢
      simp only [List.zipWith_cons_cons, List.sum_cons]
      rw [h]; ring

/-- One summand of a KL row is non-negative when its std is positive. -/
lemma kl_elem_nonneg (m s : ℝ) (hs : 0 < s) :
    0 ≤ 0.5 * (s ^ 2 + m ^ 2 - 2 * Real.log s - 1) := by
  have hlog := Real.log_le_sub_one_of_pos hs
  nlinarith [sq_nonneg (s - 1), sq_nonneg m]

/-- One summand of a KL row vanishes exactly at mean `0` and std `1`. -/
lemma kl_elem_eq_zero_iff (m s : ℝ) (hs : 0 < s) :
    0.5 * (s ^ 2 + m ^ 2 - 2 * Real.log s - 1) = 0 ↔ m = 0 ∧ s = 1 := by
  constructor
  · intro h
    have hlog := Real.log_le_sub_one_of_pos hs
    have hm2 : m ^ 2 ≤ 0 := by nlinarith [sq_nonneg (s - 1)]
    have hm : m = 0 := sq_eq_zero_iff.mp (le_antisymm hm2 (sq_nonneg m))
    refine ⟨hm, ?_⟩
    by_contra hne
    have hstrict := Real.log_lt_sub_one_of_pos hs hne
    nlinarith [sq_nonneg (s - 1), sq_nonneg m]
  · rintro ⟨rfl, rfl⟩
    simp [Real.log_one]

/-- A KL row is non-negative when its stds are positive. -/
lemma klRow_nonneg (mu : List ℝ) : ∀ (std : List ℝ),
    (∀ s ∈ std, 0 < s) → 0 ≤ klRow mu std := by
  induction mu with
  | nil => intro std _; simp [klRow]
  | cons m ms ih =>
    intro std hstd
    cases std with
    | nil => simp [klRow]
    | cons s ss =>
      have h1 : 0 < s := hstd s (List.mem_cons_self s ss)
      have h2 := ih ss (fun t ht => hstd t (List.mem_cons_of_mem s ht))
      have h3 := kl_elem_nonneg m s h1
      unfold klRow at h2 ⊢
      simp only [List.zipWith_cons_cons, List.sum_cons]
      linarith

/-- A KL row vanishes exactly when every mean is `0` and every std is `1`. -/
lemma klRow_eq_zero_iff (mu : List ℝ) : ∀ (std : List ℝ),
    mu.length = std.length → (∀ s ∈ std, 0 < s) →
    (klRow mu std = 0 ↔ (∀ m ∈ mu, m = 0) ∧ (∀ s ∈ std, s = 1)) := by
  induction mu with
  | nil =>
    intro std hlen _
    have hstd : std = [] := List.length_eq_zero.mp hlen.symm
    subst hstd
    simp [klRow]
  | cons m ms ih =>
    intro std hlen hpos
    cases std with
    | nil => simp at hlen
    | cons s ss =>
      have h1 : 0 < s := hpos s (List.mem_cons_self s ss)
      have hposs : ∀ t ∈ ss, 0 < t :=
        fun t ht => hpos t (List.mem_cons_of_mem s ht)
      have hlen' : ms.length = ss.length := by simpa using hlen
      have hrow := ih ss hlen' hposs
      have hrnn := klRow_nonneg ms ss hposs
      have hel := kl_elem_nonneg m s h1
      have hsplit : klRow (m :: ms) (s :: ss)
          = 0.5 * (s ^ 2 + m ^ 2 - 2 * Real.log s - 1) + klRow ms ss := by
        unfold klRow
        simp [List.zipWith_cons_cons, List.sum_cons]
      rw [hsplit, add_eq_zero_iff_of_nonneg hel hrnn,
        kl_elem_eq_zero_iff m s h1, hrow]
      constructor
      · rintro ⟨⟨hm, hs⟩, hms, hss⟩
        exact ⟨by simpa using And.intro hm hms,
          by simpa using And.intro hs hss⟩
      · rintro ⟨hm, hs⟩
        simp only [List.forall_mem_cons] at hm hs
        exact ⟨⟨hm.1, hs.1⟩, hm.2, hs.2⟩

/-! The claims. -/

/-- Claim C1: in the forward pass the std recorded for the sampler and the
loss is the elementwise exponential of the raw logvar-head output,
`std = exp(logvar_net(relu(encoder(x))))`, and this differs from the
conventional `exp(0.5 * logvar)` reading (witnessed by a network whose
logvar head outputs `2`). -/
theorem claim_C1 :
    (∀ (net : VAENetwork) (x esp : List ℝ),
      (net.forward x esp).std
        = (net.logvar_net.apply ((net.encoder x).map relu)).map Real.exp) ∧
    (∃ (net : VAENetwork) (x esp : List ℝ),
      (net.forward x esp).std
        ≠ (net.logvar_net.apply ((net.encoder x).map relu)).map
            (fun v => Real.exp (0.5 * v))) := by
  refine ⟨fun net x esp => rfl, ?_⟩
  refine ⟨⟨fun _ => [], ⟨[], []⟩, ⟨[[]], [2]⟩, fun v => v, false⟩, [], [], ?_⟩
  simp [VAENetwork.forward, Linear.apply, dot, Real.exp_eq_exp]
  norm_num

/-- Claim C2: the KL term of the training routine is the batch mean of
`0.5` times the per-example sum over latent dimensions of
`std^2 + mean^2 - 2*log(std) - 1`, taken over the mean and std recorded
by the forward passes. -/
theorem claim_C2 (net : VAENetwork) (inputs esps : List (List ℝ))
    (crit : List (List ℝ) → List (List ℝ) → Bool → ℝ) (beta : ℝ)
    (ssim : List (List ℝ) → List (List ℝ) → ℝ) :
    (VAE.routine net inputs esps crit beta ssim).kl
      = ((List.zipWith (fun x e => net.forward x e) inputs esps).map
          (fun fr => 0.5 *
            (List.zipWith (fun m s => s ^ 2 + m ^ 2 - 2 * Real.log s - 1)
              fr.mu fr.std).sum)).sum
        / ((List.zipWith (fun x e => net.forward x e) inputs esps).length :
            ℝ) := by
  have h1 : (VAE.routine net inputs esps crit beta ssim).kl
      = klTerm
          ((List.zipWith (fun x e => net.forward x e) inputs esps).map
            ForwardResult.mu)
          ((List.zipWith (fun x e => net.forward x e) inputs esps).map
            ForwardResult.std) := rfl
  rw [h1]
  unfold klTerm
  rw [zipWith_map_same klRow ForwardResult.mu ForwardResult.std]
  simp only [klRow_eq_half_sum, List.length_map]

/-- Claim C3: the scalar loss of the routine is
`reconstruction_term + beta_kld * kl_term` for every non-negative
`beta_kld`, and the Python default of `beta_kld` is `1`. -/
theorem claim_C3 (net : VAENetwork) (inputs esps : List (List ℝ))
    (crit : List (List ℝ) → List (List ℝ) → Bool → ℝ)
    (ssim : List (List ℝ) → List (List ℝ) → ℝ) (beta_kld : ℝ)
    (h : 0 ≤ beta_kld) :
    (VAE.routine net inputs esps crit beta_kld ssim).vae_loss
      = (VAE.routine net inputs esps crit beta_kld ssim).r_loss
        + beta_kld * (VAE.routine net inputs esps crit beta_kld ssim).kl
    ∧ beta_kld_default = 1 :=
  ⟨rfl, rfl⟩

/-- Witness for C3 at `beta_kld = 1` on a concrete one-example batch. -/
theorem claim_C3_witness :
    0 ≤ (1 : ℝ) ∧
    ((VAE.routine testNetEval [[0]] [[0]] mse_loss 1
        (fun _ _ => 0)).vae_loss
      = (VAE.routine testNetEval [[0]] [[0]] mse_loss 1
          (fun _ _ => 0)).r_loss
        + 1 * (VAE.routine testNetEval [[0]] [[0]] mse_loss 1
            (fun _ _ => 0)).kl
    ∧ beta_kld_default = 1) :=
  ⟨by norm_num,
    claim_C3 testNetEval [[0]] [[0]] mse_loss (fun _ _ => 0) 1 (by norm_num)⟩

/-- Claim C4: when the network is not in training mode, the sampler
returns the mean unchanged and the forward output is the decoder applied
directly to the recorded mean. -/
theorem claim_C4 (net : VAENetwork) (x esp : List ℝ)
    (h : net.training = false) :
    (net.forward x esp).output = net.decoder ((net.forward x esp).mu) ∧
    (net.forward x esp).latent = (net.forward x esp).mu := by
  constructor <;>
    simp [VAENetwork.forward, VAENetwork.reparametrize, h]

/-- Witness for C4 on the concrete evaluation-mode network. -/
theorem claim_C4_witness :
    testNetEval.training = false ∧
    ((testNetEval.forward [0] [0]).output
        = testNetEval.decoder ((testNetEval.forward [0] [0]).mu) ∧
      (testNetEval.forward [0] [0]).latent
        = (testNetEval.forward [0] [0]).mu) :=
  ⟨rfl, claim_C4 testNetEval [0] [0] rfl⟩

/-- Claim C5: with the default criterion, the reconstruction term of the
routine is the summed (not averaged) squared error between reconstruction
and input, divided by the batch size; the summed mode of `mse_loss` is
the plain sum of squared differences, and the default criterion is
`mse_loss`. -/
theorem claim_C5 (net : VAENetwork) (inputs esps : List (List ℝ))
    (beta : ℝ) (ssim : List (List ℝ) → List (List ℝ) → ℝ) :
    (VAE.routine net inputs esps vae_criterion_default beta ssim).r_loss
      = mse_loss
          ((List.zipWith (fun x e => net.forward x e) inputs esps).map
            ForwardResult.output) inputs false / (inputs.length : ℝ)
    ∧ (∀ output target : List (List ℝ),
        mse_loss output target false
          = (List.zipWith (fun o t =>
              (List.zipWith (fun a b => (a - b) ^ 2) o t).sum)
              output target).sum)
    ∧ vae_criterion_default = mse_loss := by
  refine ⟨rfl, ?_, rfl⟩
  intro output target
  simp [mse_loss]

/-- Claim C6: given matching dimensions and componentwise-positive stds,
the KL term is non-negative, and it vanishes exactly when every mean
entry is `0` and every std entry is `1`. -/
theorem claim_C6 (mus stds : List (List ℝ))
    (hlen : mus.length = stds.length)
    (hrow : ∀ p ∈ List.zip mus stds, p.1.length = p.2.length)
    (hpos : ∀ row ∈ stds, ∀ s ∈ row, 0 < s) :
    0 ≤ klTerm mus stds ∧
    (klTerm mus stds = 0 ↔
      ∀ p ∈ List.zip mus stds, (∀ m ∈ p.1, m = 0) ∧ (∀ s ∈ p.2, s = 1)) := by
  have hmem : ∀ x ∈ List.zipWith klRow mus stds, 0 ≤ x := by
    intro x hx
    rw [zipWith_eq_map_zip] at hx
    obtain ⟨p, hp, rfl⟩ := List.mem_map.mp hx
    exact klRow_nonneg p.1 p.2 (fun s hs => hpos p.2 (List.of_mem_zip hp).2 s hs)
  have hsum : 0 ≤ (List.zipWith klRow mus stds).sum := List.sum_nonneg hmem
  refine ⟨div_nonneg hsum (Nat.cast_nonneg _), ?_⟩
  unfold klTerm
  cases mus with
  | nil => simp
  | cons mu0 mus' =>
    have hne : (((mu0 :: mus').length : ℕ) : ℝ) ≠ 0 :=
      Nat.cast_ne_zero.mpr (by simp)
    rw [div_eq_zero_iff]
    constructor
    · rintro (hS | habs)
      · intro p hp
        have hmemx : klRow p.1 p.2 ∈ List.zipWith klRow (mu0 :: mus') stds := by
          rw [zipWith_eq_map_zip]
          exact List.mem_map_of_mem _ hp
        have hz : klRow p.1 p.2 = 0 :=
          List.all_zero_of_le_zero_le_of_sum_eq_zero hmem hS hmemx
        exact (klRow_eq_zero_iff p.1 p.2 (hrow p hp)
          (fun s hs => hpos p.2 (List.of_mem_zip hp).2 s hs)).mp hz
      · exact absurd habs hne
    · intro hall
      left
      apply List.sum_eq_zero
      intro x hx
      rw [zipWith_eq_map_zip] at hx
      obtain ⟨p, hp, rfl⟩ := List.mem_map.mp hx
      exact (klRow_eq_zero_iff p.1 p.2 (hrow p hp)
        (fun s hs => hpos p.2 (List.of_mem_zip hp).2 s hs)).mpr (hall p hp)

/-- Witness for C6 on the one-example batch with mean `[0]`, std `[1]`. -/
theorem claim_C6_witness :
    ([[(0 : ℝ)]].length = [[(1 : ℝ)]].length) ∧
    (∀ p ∈ List.zip [[(0 : ℝ)]] [[(1 : ℝ)]], p.1.length = p.2.length) ∧
    (∀ row ∈ [[(1 : ℝ)]], ∀ s ∈ row, 0 < s) ∧
    (0 ≤ klTerm [[(0 : ℝ)]] [[(1 : ℝ)]] ∧
      (klTerm [[(0 : ℝ)]] [[(1 : ℝ)]] = 0 ↔
        ∀ p ∈ List.zip [[(0 : ℝ)]] [[(1 : ℝ)]],
          (∀ m ∈ p.1, m = 0) ∧ (∀ s ∈ p.2, s = 1))) := by
  have h2 : ∀ p ∈ List.zip [[(0 : ℝ)]] [[(1 : ℝ)]],
      p.1.length = p.2.length := by
    intro p hp
    simp only [List.zip_cons_cons, List.zip_nil_right, List.mem_singleton] at hp
    subst hp
    rfl
  have h3 : ∀ row ∈ [[(1 : ℝ)]], ∀ s ∈ row, 0 < s := by
    intro row hr s hs
    simp only [List.mem_singleton] at hr
    subst hr
    simp only [List.mem_singleton] at hs
    subst hs
    norm_num
  exact ⟨rfl, h2, h3, claim_C6 [[(0 : ℝ)]] [[(1 : ℝ)]] rfl h2 h3⟩

/-- Claim C7: the forward pass computes the mean with the mu head and the
log-variance preactivation with the logvar head, both from the rectified
encoder features, and both vectors have length `dim_z` whenever the heads
obey the `nn.Linear(dim_out, dim_z)` dimension discipline. -/
theorem claim_C7 (net : VAENetwork) (dimIn dimZ : ℕ) (x esp : List ℝ)
    (hmu : net.mu_net.hasDims dimIn dimZ)
    (hlv : net.logvar_net.hasDims dimIn dimZ) :
    (net.forward x esp).mu = net.mu_net.apply ((net.encoder x).map relu) ∧
    (net.forward x esp).mu.length = dimZ ∧
    (net.forward x esp).std
      = (net.logvar_net.apply ((net.encoder x).map relu)).map Real.exp ∧
    (net.logvar_net.apply ((net.encoder x).map relu)).length = dimZ := by
  obtain ⟨hw1, _, hb1⟩ := hmu
  obtain ⟨hw2, _, hb2⟩ := hlv
  refine ⟨rfl, ?_, rfl, ?_⟩
  · show (net.mu_net.apply ((net.encoder x).map relu)).length = dimZ
    simp [Linear.apply, List.length_zipWith, hw1, hb1]
  · simp [Linear.apply, List.length_zipWith, hw2, hb2]

/-- Witness for C7 on the concrete network with `dim_out = dim_z = 1`. -/
theorem claim_C7_witness :
    Linear.hasDims oneLin 1 1 ∧
    ((testNetEval.forward [0] [0]).mu
        = testNetEval.mu_net.apply ((testNetEval.encoder [0]).map relu) ∧
      (testNetEval.forward [0] [0]).mu.length = 1 ∧
      (testNetEval.forward [0] [0]).std
        = (testNetEval.logvar_net.apply
            ((testNetEval.encoder [0]).map relu)).map Real.exp ∧
      (testNetEval.logvar_net.apply
          ((testNetEval.encoder [0]).map relu)).length = 1) :=
  ⟨oneLin_hasDims,
    claim_C7 testNetEval 1 1 [0] [0] oneLin_hasDims oneLin_hasDims⟩

/-- Claim C8, counterexample: `build` with `dim_z = 0` (not a positive
integer) succeeds with the given dimensions and does not produce a
`ConfigurationError`; the body of `VAE.build` performs no validation. -/
theorem claim_C8_counterexample :
    VAE.build (some 0) none = Except.ok ((0 : ℤ), (1024 : ℤ)) ∧
    VAE.build (some 0) none ≠ Except.error ConfigurationError.mk :=
  ⟨rfl, fun hc => Except.noConfusion hc⟩

/-- Claim C8, amended: `build` never raises; a missing `dim_z` or
`dim_encoder_out` silently takes the Python defaults `64` and `1024`, and
non-positive values are passed through unvalidated. -/
theorem claim_C8_amended (dim_z dim_encoder_out : Option ℤ) :
    VAE.build dim_z dim_encoder_out
      = Except.ok (dim_z.getD 64, dim_encoder_out.getD 1024) := rfl

/-- Claim C9, counterexample: on a concrete batch the routine emits
exactly the two metrics `KL_divergence` and `ms_ssim`; there is no
`reconstruction_loss` metric and the emitted set has two elements, not
three. -/
theorem claim_C9_counterexample :
    ((VAE.routine testNetEval [[0]] [[0]] mse_loss 1
        (fun _ _ => 0)).results).map Prod.fst
      = ["KL_divergence", "ms_ssim"] ∧
    "reconstruction_loss" ∉
      ((VAE.routine testNetEval [[0]] [[0]] mse_loss 1
          (fun _ _ => 0)).results).map Prod.fst ∧
    ((VAE.routine testNetEval [[0]] [[0]] mse_loss 1
        (fun _ _ => 0)).results).length ≠ 3 := by
  refine ⟨rfl, ?_, ?_⟩ <;> decide

/-- Claim C9, amended: every routine invocation emits exactly the metrics
`KL_divergence` (the KL term) and `ms_ssim` (the black-box structural
similarity applied to the input batch and the reconstructions); no
reconstruction-loss metric is emitted. -/
theorem claim_C9_amended (net : VAENetwork) (inputs esps : List (List ℝ))
    (crit : List (List ℝ) → List (List ℝ) → Bool → ℝ) (beta : ℝ)
    (ssim : List (List ℝ) → List (List ℝ) → ℝ) :
    (VAE.routine net inputs esps crit beta ssim).results
      = [("KL_divergence", (VAE.routine net inputs esps crit beta ssim).kl),
         ("ms_ssim", ssim inputs
           ((List.zipWith (fun x e => net.forward x e) inputs esps).map
             ForwardResult.output))] := rfl

/-- Claim C10: every component of the std recorded by a forward pass is
strictly positive, being an elementwise exponential, so the `log` in the
subsequent KL term only sees positive arguments. -/
theorem claim_C10 (net : VAENetwork) (x esp : List ℝ) (s : ℝ)
    (h : s ∈ (net.forward x esp).std) : 0 < s := by
  have hstd : (net.forward x esp).std
      = (net.logvar_net.apply ((net.encoder x).map relu)).map Real.exp := rfl
  rw [hstd] at h
  obtain ⟨v, _, rfl⟩ := List.mem_map.mp h
  exact Real.exp_pos v

/-- Witness for C10 on the concrete network, whose std is `[exp 0]`. -/
theorem claim_C10_witness :
    Real.exp 0 ∈ (testNetEval.forward [0] [0]).std ∧ 0 < Real.exp 0 := by
  have hmem : Real.exp 0 ∈ (testNetEval.forward [0] [0]).std := by
    simp [testNetEval, idNet, oneLin, VAENetwork.forward, Linear.apply,
      dot, relu]
  exact ⟨hmem, claim_C10 testNetEval [0] [0] (Real.exp 0) hmem⟩

end Cortex
